import Mathlib

/-!
Shallow embedding of the bucketization and input-pipeline helpers of
`nn4omtf/network/input_pipe_helpers.py` and of the control flow of
`OMTFRunner` in `nn4omtf/network/runner.py` (repository `fuw-nn4omtf`),
together with theorems settling the specification claims about them.

Values flowing through the bucketizers are modelled as rationals; every
constant the code compares against (`-1.5`, `0`, the bucket edges) is
exactly representable, so the float comparisons of the source coincide
with the rational ones.
-/

/-! ### Bucketizers (`input_pipe_helpers.py`, lines 76-89) -/

/-- Model of `np.digitize(x, bins)` with the default `right=False` on a
monotonically increasing edge list: the returned index is the number of
edges `e` with `e <= x` (a value equal to an edge falls into the upper,
right-open bucket). -/
def digitize (v : ℚ) (bins : List ℚ) : ℕ :=
  bins.countP (fun e => decide (e ≤ v))

/-- `prod_bucket_fn` (line 77): `lambda x: np.digitize(x=x, bins=out_class_bins)`. -/
def prod_bucket_fn (out_class_bins : List ℚ) (x : ℚ) : ℕ :=
  digitize x out_class_bins

/-- `prod_sgn_bucket_fn` (line 79): `lambda x: np.digitize(x=x, bins=[0])`;
0 for a negative charge sign, 1 for a non-negative one. -/
def prod_sgn_bucket_fn (x : ℚ) : ℕ :=
  digitize x [0]

/-- `omtf_bucket_fn` (lines 81-83): `omtf_bins` is a copy of
`out_class_bins` with `0` inserted at the front, and the function is
`lambda x: np.digitize(x=x, bins=omtf_bins) - 1`. -/
def omtf_bucket_fn (out_class_bins : List ℚ) (x : ℚ) : ℤ :=
  (digitize x (0 :: out_class_bins) : ℤ) - 1

/-- `omtf_sgn_bucket_fn` (line 89):
`lambda x: np.digitize(x=x, bins=[-1.5, 0]) - 1`. -/
def omtf_sgn_bucket_fn (x : ℚ) : ℤ :=
  (digitize x [-(3 / 2), 0] : ℤ) - 1

/-- Model of `tf.one_hot(k, depth)` with default on/off values: a vector of
`depth` entries holding 1 at index `k` and 0 elsewhere (all zeros when `k`
is out of range, for instance negative). -/
def one_hot (k : ℤ) (depth : ℕ) : List ℚ :=
  (List.range depth).map (fun i : ℕ => if (i : ℤ) = k then 1 else 0)

/-- `out_len` as computed in `setup_input_pipe` (line 206):
`len(out_class_bins) + 1`, the number of pt classes. -/
def out_len (out_class_bins : List ℚ) : ℕ :=
  out_class_bins.length + 1

/-- The production charge-sign label built by `_deserialize`
(lines 102-107): `tf.one_hot(prod_sign_k, 2)`.  The deserializer receives
the bucket-edge configuration, but the sign one-hot depth is the literal
`2`, independent of it. -/
def prod_sign_label (out_class_bins : List ℚ) (sign : ℚ) : List ℚ :=
  one_hot (prod_sgn_bucket_fn sign : ℤ) 2

/-- Second dimension of the `sgn_labels` placeholder declared in
`OMTFRunner.train` (runner.py line 266): `shape=[None, 3]`. -/
def train_sgn_labels_width : ℕ := 3

/-! ### Input pipeline (`input_pipe_helpers.py`, lines 174-254) -/

/-- Modelled from the spec: the `PIPE_MAPPING_TYPE.INTERLEAVE` constant of
`nn4omtf/network/input_pipe_const.py`, a file that is not among the
sources at hand; the spec names the two expansion strategies INTERLEAVE
and FLAT.  Only the distinctness of the two constants matters to the
dispatch in `setup_input_pipe`. -/
def PIPE_MAPPING_TYPE_INTERLEAVE : ℕ := 0

/-- Modelled from the spec: the `PIPE_MAPPING_TYPE.FLAT_MAP` constant, see
`PIPE_MAPPING_TYPE_INTERLEAVE`. -/
def PIPE_MAPPING_TYPE_FLAT_MAP : ℕ := 1

/-- Model of `tf.data.Dataset.interleave` as invoked at lines 225-228 with
`cycle_length` equal to the number of files and `block_length=1`: one
example is pulled from each non-exhausted file in turn, an exhausted file
dropping out of the rotation.  The fuel argument bounds the number of
rounds; each round with a non-empty file consumes at least one example,
so the total example count supplied by `interleave` always suffices. -/
def interleaveAux {α : Type*} : ℕ → List (List α) → List α
  | 0, _ => []
  | fuel + 1, fs =>
    if fs.all List.isEmpty then []
    else fs.filterMap List.head? ++ interleaveAux fuel (fs.map List.tail)

/-- The INTERLEAVE expansion of a list of files (each file a list of its
examples), in file order.  The file order produced by the preceding
`files_dataset.shuffle` is arbitrary, so every statement proved below is
quantified over all file orders. -/
def interleave {α : Type*} (fs : List (List α)) : List α :=
  interleaveAux (fs.map List.length).sum fs

/-- `dataset.repeat(count=reps)` (line 237) on an already expanded stream. -/
def datasetRepeat {α : Type*} (reps : ℕ) (l : List α) : List α :=
  (List.replicate reps l).flatten

/-- Model of the expansion-strategy dispatch of `setup_input_pipe`
(lines 217-234) followed by `repeat` (line 237).  The function mirrors the
source in receiving only the file count and configuration: the concrete
file contents are bound later through the returned mapping (the
placeholder/iterator design of the source), so an error is raised during
construction, before any example data is read. -/
def setup_input_pipe {α : Type*} (files_n : ℕ) (mapping_type : ℕ) (reps : ℕ) :
    Except String (List (List α) → List α) :=
  if mapping_type = PIPE_MAPPING_TYPE_INTERLEAVE then
    .ok (fun files => datasetRepeat reps (interleave files))
  else if mapping_type = PIPE_MAPPING_TYPE_FLAT_MAP then
    .ok (fun files => datasetRepeat reps files.flatten)
  else
    .error "mapping_type param in not one of PIPE_MAPPING_TYPE constants."

/-- Tag every example with the index of its source file: the j-th file's
examples become pairs with first component `n + j`. -/
def tagFrom {α : Type*} (n : ℕ) : List (List α) → List (List (ℕ × α))
  | [] => []
  | f :: fs => f.map (fun x => (n, x)) :: tagFrom (n + 1) fs

/-- `Tagged n fs` states that the j-th member of `fs` holds only pairs
whose first component is `n + j`; it is the invariant preserved by the
interleave rotation. -/
def Tagged {α : Type*} : ℕ → List (List (ℕ × α)) → Prop
  | _, [] => True
  | n, f :: fs => (∀ x ∈ f, x.1 = n) ∧ Tagged (n + 1) fs

/-- The sequence of source-file indices of the successive un-batched pulls
out of the INTERLEAVE expansion of `fs`. -/
def fileTrace {α : Type*} (fs : List (List α)) : List ℕ :=
  (interleave (tagFrom 0 fs)).map Prod.fst

/-! ### Runner (`runner.py`) -/

/-- Python values stored in the runner parameter dict. -/
inductive PyVal
  | pyInt (n : ℤ)
  | pyStr (s : String)
  | pyBool (b : Bool)
  | pyNone
  | pyRat (q : ℚ)
  | pyList (l : List ℚ)
deriving DecidableEq

/-- `OMTFRunner.DEFAULT_PARAMS` (runner.py lines 36-53), a class-level
dict. -/
def DEFAULT_PARAMS : List (String × PyVal) :=
  [("valid_batch_size", .pyInt 1000),
   ("batch_size", .pyInt 1000),
   ("sess_prefix", .pyStr ""),
   ("shuffle", .pyBool false),
   ("acc_ival", .pyInt 1000),
   ("epochs", .pyInt 1),
   ("steps", .pyInt (-1)),
   ("logdir", .pyStr "."),
   ("verbose", .pyBool false),
   ("learning_rate", .pyRat (1 / 1000)),
   ("shiftval", .pyInt 600),
   ("nullval", .pyInt 0),
   ("limit_valid_examples", .pyNone),
   ("limit_test_examples", .pyNone),
   ("debug", .pyBool false),
   ("log", .pyStr "none")]

/-- Lookup in a Python dict modelled as an association list without
duplicate keys. -/
def dictLookup (k : String) : List (String × PyVal) → Option PyVal
  | [] => none
  | (k', v) :: rest => if k' = k then some v else dictLookup k rest

/-- `d[k] = v` on a Python dict: replace the binding when the key is
present, append it otherwise. -/
def dictSet (d : List (String × PyVal)) (k : String) (v : PyVal) :
    List (String × PyVal) :=
  match d with
  | [] => [(k, v)]
  | (k', v') :: rest =>
    if k' = k then (k, v) :: rest else (k', v') :: dictSet rest k v

/-- `OMTFRunner.__init__` (runner.py lines 55-84) acting on the class-level
dict.  `params = OMTFRunner.DEFAULT_PARAMS` aliases the class attribute
(no copy is taken); keyword overrides are written in place for keys
already present; the per-session variables (timestamp, sess_name, in_type,
out_class_bins, out_len) are then written unconditionally.  The returned
dict is simultaneously the new class-attribute state and the instance's
`self.params`, so it is threaded into the next construction. -/
def omtfRunnerInit (classParams : List (String × PyVal))
    (kw : List (String × PyVal)) (timestamp netName : String)
    (inType : PyVal) (ptClass : List ℚ) : List (String × PyVal) :=
  let params := kw.foldl
    (fun p kv => if (dictLookup kv.1 p).isSome then dictSet p kv.1 kv.2 else p)
    classParams
  let pref := match dictLookup "sess_prefix" params with
    | some (.pyStr s) => s
    | _ => ""
  let params := dictSet params "timestamp" (.pyStr timestamp)
  let params := dictSet params "sess_name"
      (.pyStr (pref ++ netName ++ "_" ++ timestamp))
  let params := dictSet params "in_type" inType
  let params := dictSet params "out_class_bins" (.pyList ptClass)
  let params := dictSet params "out_len" (.pyInt (ptClass.length + 1))
  params

/-- Why the training loop of `OMTFRunner.train` stopped. -/
inductive StopReason
  | budgetReached
  | streamExhausted
  | interrupted
  | debugExit
deriving DecidableEq

/-- The finalization steps executed after the training loop
(runner.py lines 383-386). -/
inductive FinalAction
  | finishModel
  | saveModel
  | closeLogs
deriving DecidableEq

/-- Observable outcome of a `train` call: why the loop stopped and which
finalization actions ran, in order, before `train` returned. -/
structure TrainOutcome where
  reason : StopReason
  finalActions : List FinalAction
deriving DecidableEq

/-- The `while` loop of `OMTFRunner.train` (runner.py lines 307-371).  The
step counter `i` starts at 1 and the loop runs while `i <= steps or
steps < 0`; each pass fetches a batch, a `None` batch breaking out early;
in debug mode a `True` answer from the step debugger also breaks out; a
`KeyboardInterrupt` is observed at a step boundary and caught by the
`except` clause.  The training stream is modelled as the list of batches
`fetch` yields before exhaustion; `fetch` signalling exhaustion by a
`None` batch is the `OMTFInputPipe.fetch` contract of spec section 4.3
(the class body itself is not among the sources at hand). -/
def trainLoop {β : Type*} (steps : ℤ) (debug : Bool) (dbgStop : ℕ → Bool)
    (intr : Option ℕ) : List β → ℕ → StopReason
  | [], i =>
    if intr = some i then .interrupted
    else if ¬ ((i : ℤ) ≤ steps ∨ steps < 0) then .budgetReached
    else .streamExhausted
  | _ :: rest, i =>
    if intr = some i then .interrupted
    else if ¬ ((i : ℤ) ≤ steps ∨ steps < 0) then .budgetReached
    else if debug && dbgStop i then .debugExit
    else trainLoop steps debug dbgStop intr rest (i + 1)

/-- `OMTFRunner.train` (runner.py lines 211-386) reduced to its observable
control flow: run the loop, then unconditionally `network.finish()`,
`network.save()` and `_log_deinit()` (lines 383-386), in that order, on
every termination path including the caught `KeyboardInterrupt`. -/
def omtfTrain {β : Type*} (steps : ℤ) (debug : Bool) (dbgStop : ℕ → Bool)
    (intr : Option ℕ) (stream : List β) : TrainOutcome :=
  { reason := trainLoop steps debug dbgStop intr stream 1,
    finalActions := [.finishModel, .saveModel, .closeLogs] }

/-- The module-level names in scope in `nn4omtf/network/runner.py`: the
imports of lines 9-23, the class defined by the module, and the Python
builtins the file uses. -/
def runnerModuleScope : List String :=
  ["tf", "time", "os", "threading", "subprocess",
   "OMTFDataset", "OMTFNN", "init_uninitialized_variables",
   "dict_to_object", "collect_statistics", "setup_metrics",
   "setup_trainer", "OMTFInputPipe", "PIPE_EXTRA_DATA_NAMES",
   "NN_HOLDERS_NAMES", "PHASE_NAME", "CNAMES", "OMTFRunner",
   "print", "dict", "zip", "len", "open", "input", "list", "range",
   "float", "int", "str", "format"]

/-- The global names referenced by the body of `OMTFRunner.test`
(runner.py lines 389-468) in evaluation order; attribute accesses on
`self` and local variables are not module-level lookups. -/
def testGlobalRefs : List String :=
  ["dict_to_object", "tf", "OMTFInputPipe", "tf", "tf", "tf",
   "setup_accuracy", "tf", "collect_statistics", "print"]

/-- The structured summary `res` built at the end of `OMTFRunner.test`
(runner.py lines 463-468). -/
structure TestSummary where
  sess_name : String
  accuracy : List (String × ℚ)
  model : String
deriving DecidableEq

/-- Name-resolution model of a call to `OMTFRunner.test`: Python resolves
each global reference at use time, and the first one not bound in the
module scope aborts the call with a `NameError`; if all resolve, the
summary dict of lines 463-468 is returned. -/
def omtfRunnerTest (sessName modelName : String)
    (acc : List (String × ℚ)) : Except String TestSummary :=
  match testGlobalRefs.find? (fun n => ! runnerModuleScope.contains n) with
  | some n => .error ("NameError: name " ++ n ++ " is not defined")
  | none =>
    .ok { sess_name := sessName ++ "/test", accuracy := acc,
          model := modelName }

/-! ### Lemmas about `digitize` -/

/-- Digitizing against the empty edge list yields 0. -/
theorem digitize_nil (v : ℚ) : digitize v [] = 0 := rfl

/-- Unfolding one edge of `digitize`. -/
theorem digitize_cons (v e : ℚ) (E : List ℚ) :
    digitize v (e :: E) = digitize v E + if e ≤ v then 1 else 0 := by
  simp [digitize, List.countP_cons]

/-- The digitize index never exceeds the number of edges. -/
theorem digitize_le_length (v : ℚ) (E : List ℚ) : digitize v E ≤ E.length :=
  List.countP_le_length _

/-- If the edges strictly below position `i` are the ones `≤ v`, the
digitize index is exactly `i`. -/
theorem digitize_eq_of_threshold (v : ℚ) :
    ∀ (E : List ℚ) (i : ℕ), i ≤ E.length →
    (∀ j, (hj : j < E.length) → j < i → E[j] ≤ v) →
    (∀ j, (hj : j < E.length) → i ≤ j → v < E[j]) →
    digitize v E = i := by
  intro E
  induction E with
  | nil =>
    intro i hi _ _
    simpa [digitize] using (Nat.le_zero.mp hi).symm
  | cons e E ih =>
    intro i hi hlow hhigh
    cases i with
    | zero =>
      have he : ¬ e ≤ v := by
        have h := hhigh 0 (Nat.succ_pos _) (Nat.zero_le 0)
        simpa using not_le.mpr h
      have hE : digitize v E = 0 := by
        apply ih 0 (Nat.zero_le _)
        · intro j hj hj0
          exact absurd hj0 (Nat.not_lt_zero j)
        · intro j hj _
          have h := hhigh (j + 1) (Nat.succ_lt_succ hj) (Nat.zero_le _)
          simpa using h
      rw [digitize_cons, hE, if_neg he]
    | succ i =>
      have he : e ≤ v := by
        have h := hlow 0 (Nat.succ_pos _) (Nat.succ_pos i)
        simpa using h
      have hi' : i ≤ E.length := by
        simp only [List.length_cons] at hi
        omega
      have hE : digitize v E = i := by
        apply ih i hi'
        · intro j hj hji
          have h := hlow (j + 1) (Nat.succ_lt_succ hj) (Nat.succ_lt_succ hji)
          simpa using h
        · intro j hj hij
          have h := hhigh (j + 1) (Nat.succ_lt_succ hj) (Nat.succ_le_succ hij)
          simpa using h
      rw [digitize_cons, hE, if_pos he]

/-- Concrete evaluation of the reference sign bucketizer at the failure
sentinel -2.0. -/
theorem omtf_sgn_bucket_at_neg_two : omtf_sgn_bucket_fn (-2) = -1 := by
  unfold omtf_sgn_bucket_fn
  simp only [digitize_cons, digitize_nil]
  norm_num

/-- Concrete evaluation of the reference sign bucketizer at 5.0. -/
theorem omtf_sgn_bucket_at_five : omtf_sgn_bucket_fn 5 = 1 := by
  unfold omtf_sgn_bucket_fn
  simp only [digitize_cons, digitize_nil]
  norm_num

/-- Concrete evaluation of the reference sign bucketizer at -5.0. -/
theorem omtf_sgn_bucket_at_neg_five : omtf_sgn_bucket_fn (-5) = -1 := by
  unfold omtf_sgn_bucket_fn
  simp only [digitize_cons, digitize_nil]
  norm_num

/-- The length of a one-hot vector is its depth. -/
theorem one_hot_length (k : ℤ) (d : ℕ) : (one_hot k d).length = d := by
  unfold one_hot
  rw [List.length_map, List.length_range]

/-! ### Claim theorems: bucketizers -/

/-- C1 (corrected): the reference-algorithm sign bucketizer
`omtf_sgn_bucket_fn` maps the failure sentinel -2.0 to -1 (not to 0 as
claimed), 5.0 to 1 (not 2) and -5.0 to -1 (not 1, since -5.0 lies below
the -1.5 edge and falls into the no-match region); its range is the
3-valued space {-1, 0, 1} rather than {0, 1, 2}. -/
theorem omtf_sgn_bucket_amended_spec :
    omtf_sgn_bucket_fn (-2) = -1 ∧ omtf_sgn_bucket_fn 5 = 1 ∧
    omtf_sgn_bucket_fn (-5) = -1 ∧
    (∀ v : ℚ, omtf_sgn_bucket_fn v = -1 ∨ omtf_sgn_bucket_fn v = 0 ∨
      omtf_sgn_bucket_fn v = 1) := by
  refine ⟨omtf_sgn_bucket_at_neg_two, omtf_sgn_bucket_at_five,
    omtf_sgn_bucket_at_neg_five, ?_⟩
  intro v
  unfold omtf_sgn_bucket_fn
  rcases le_or_lt (-(3 / 2) : ℚ) v with h1 | h1
  · rcases le_or_lt (0 : ℚ) v with h2 | h2
    · right; right
      rw [digitize_cons, digitize_cons, digitize_nil, if_pos h1, if_pos h2]
      norm_num
    · right; left
      rw [digitize_cons, digitize_cons, digitize_nil, if_pos h1,
        if_neg (not_le.mpr h2)]
      norm_num
  · left
    have h2 : ¬ (0 : ℚ) ≤ v := not_le.mpr (lt_trans h1 (by norm_num))
    rw [digitize_cons, digitize_cons, digitize_nil,
      if_neg (not_le.mpr h1), if_neg h2]
    norm_num

/-- C1 counterexample: `omtf_sgn_bucket_fn` does not realize the claimed
mapping -2.0 to 0, 5.0 to 2, -5.0 to 1 (it yields -1, 1 and -1). -/
theorem omtf_sgn_bucket_cex :
    ¬ (omtf_sgn_bucket_fn (-2) = 0 ∧ omtf_sgn_bucket_fn 5 = 2 ∧
       omtf_sgn_bucket_fn (-5) = 1) := by
  intro h
  rw [omtf_sgn_bucket_at_neg_two] at h
  exact absurd h.1 (by norm_num)

/-- C2 (confirmed): for an ordered edge list and a non-sentinel value
`v ≥ 0`, the reference-policy pt bucketizer (prepend a 0 edge, digitize,
subtract 1) agrees with the label-policy pt bucketizer (plain digitize),
and the shared class index lies inside the class space of size
`len(E) + 1`. -/
theorem omtf_prod_bucket_agree (E : List ℚ) (v : ℚ)
    (hE : E.Sorted (· ≤ ·)) (hv : 0 ≤ v) :
    omtf_bucket_fn E v = (prod_bucket_fn E v : ℤ) ∧
    prod_bucket_fn E v < out_len E := by
  constructor
  · unfold omtf_bucket_fn prod_bucket_fn
    rw [digitize_cons, if_pos hv]
    push_cast
    ring
  · simpa [out_len, prod_bucket_fn] using
      Nat.lt_succ_of_le (digitize_le_length v E)

/-- C2 witness at edges [10, 20, 30] and v = 15. -/
theorem omtf_prod_bucket_agree_witness :
    omtf_bucket_fn [10, 20, 30] 15 = (prod_bucket_fn [10, 20, 30] 15 : ℤ) ∧
    prod_bucket_fn [10, 20, 30] 15 < out_len [10, 20, 30] :=
  omtf_prod_bucket_agree [10, 20, 30] 15 (by decide) (by decide)

/-- C3 (confirmed): for a strictly ordered edge list, the label-policy pt
bucketizer returns `i + 1` for a value strictly between the edges at
positions `i` and `i + 1`, sends a value equal to an edge to the upper
(right-open) bucket, and always lands in the range `[0, len(E)]`. -/
theorem prod_bucket_fn_digitize_spec (E : List ℚ) (v : ℚ)
    (hE : E.Sorted (· < ·)) :
    (∀ i, (h1 : i < E.length) → (h2 : i + 1 < E.length) →
        E[i] < v → v < E[i + 1] → prod_bucket_fn E v = i + 1) ∧
    (∀ i, (h1 : i < E.length) → v = E[i] → prod_bucket_fn E v = i + 1) ∧
    (0 ≤ prod_bucket_fn E v ∧ prod_bucket_fn E v ≤ E.length) := by
  have hpw := List.pairwise_iff_getElem.mp hE
  refine ⟨?_, ?_, Nat.zero_le _, digitize_le_length v E⟩
  · intro i h1 h2 hlo hhi
    apply digitize_eq_of_threshold v E (i + 1) (Nat.succ_le_of_lt h1)
    · intro j hj hji
      rcases Nat.lt_succ_iff_lt_or_eq.mp hji with hji' | rfl
      · exact le_of_lt (lt_trans (hpw j i hj h1 hji') hlo)
      · exact le_of_lt hlo
    · intro j hj hij
      rcases eq_or_lt_of_le hij with rfl | hij'
      · exact hhi
      · exact lt_trans hhi (hpw (i + 1) j h2 hj hij')
  · intro i h1 hv
    apply digitize_eq_of_threshold v E (i + 1) (Nat.succ_le_of_lt h1)
    · intro j hj hji
      rcases Nat.lt_succ_iff_lt_or_eq.mp hji with hji' | rfl
      · exact le_of_lt (lt_of_lt_of_eq (hpw j i hj h1 hji') hv.symm)
      · exact le_of_eq hv.symm
    · intro j hj hij
      exact lt_of_eq_of_lt hv (hpw i j h1 hj (Nat.lt_of_succ_le hij))

/-- C3 witness at edges [10, 20, 30]: 15 lies strictly inside bin 1, the
edge value 20 goes to the upper bucket 2, and 999 clamps within 3. -/
theorem prod_bucket_fn_digitize_spec_witness :
    prod_bucket_fn [10, 20, 30] 15 = 1 ∧
    prod_bucket_fn [10, 20, 30] 20 = 2 ∧
    prod_bucket_fn [10, 20, 30] 999 ≤ 3 := by
  have hs : ([10, 20, 30] : List ℚ).Sorted (· < ·) := by decide
  refine ⟨?_, ?_, ?_⟩
  · exact (prod_bucket_fn_digitize_spec [10, 20, 30] 15 hs).1 0
      (by decide) (by decide) (by decide) (by decide)
  · exact (prod_bucket_fn_digitize_spec [10, 20, 30] 20 hs).2.1 1
      (by decide) (by decide)
  · exact (prod_bucket_fn_digitize_spec [10, 20, 30] 999 hs).2.2.2

/-- C4 counterexample: the reference pt bucketizer applied to the OMTF
mismatch value -999.0 yields -1, below the claimed lower clamp 0. -/
theorem bucket_range_cex :
    ¬ (0 ≤ omtf_bucket_fn [10, 20, 30] (-999)) := by decide

/-- C4 (corrected): for every input the label pt bucketizer lands in
`[0, class_count - 1]` and the label sign bucketizer in `[0, 1]`, but the
two reference-policy bucketizers clamp below at -1, not 0: the reference
pt bucketizer lands in `[-1, class_count - 1]` and the reference sign
bucketizer in `[-1, 1]` (the upper clamps all hold). -/
theorem bucket_range_amended (E : List ℚ) (v : ℚ) :
    (0 ≤ prod_bucket_fn E v ∧ prod_bucket_fn E v ≤ out_len E - 1) ∧
    (0 ≤ prod_sgn_bucket_fn v ∧ prod_sgn_bucket_fn v ≤ 1) ∧
    (-1 ≤ omtf_bucket_fn E v ∧ omtf_bucket_fn E v ≤ (out_len E : ℤ) - 1) ∧
    (-1 ≤ omtf_sgn_bucket_fn v ∧ omtf_sgn_bucket_fn v ≤ 1) := by
  refine ⟨⟨Nat.zero_le _, ?_⟩, ⟨Nat.zero_le _, ?_⟩, ⟨?_, ?_⟩, ⟨?_, ?_⟩⟩
  · simpa [out_len, prod_bucket_fn] using digitize_le_length v E
  · simpa [prod_sgn_bucket_fn] using digitize_le_length v [0]
  · have h : (0 : ℤ) ≤ (digitize v (0 :: E) : ℤ) := Int.ofNat_nonneg _
    unfold omtf_bucket_fn
    omega
  · have h := digitize_le_length v (0 :: E)
    simp only [List.length_cons] at h
    unfold omtf_bucket_fn out_len
    omega
  · have h : (0 : ℤ) ≤ (digitize v [-(3 / 2), 0] : ℤ) := Int.ofNat_nonneg _
    unfold omtf_sgn_bucket_fn
    omega
  · have h := digitize_le_length v [-(3 / 2), 0]
    simp only [List.length_cons, List.length_nil] at h
    unfold omtf_sgn_bucket_fn
    omega

/-- C10 (confirmed): the deserializer one-hot encodes the production sign
with depth literal 2 for every bucket-edge configuration, while
`OMTFRunner.train` declares its sign-label placeholder with second
dimension 3, so the batch sign-label width never matches the declared
placeholder width. -/
theorem sign_label_width_mismatch (out_class_bins : List ℚ) (sign : ℚ) :
    (prod_sign_label out_class_bins sign).length = 2 ∧
    train_sgn_labels_width = 3 ∧
    (prod_sign_label out_class_bins sign).length ≠ train_sgn_labels_width := by
  refine ⟨?_, rfl, ?_⟩
  · simp [prod_sign_label, one_hot_length]
  · simp [prod_sign_label, one_hot_length, train_sgn_labels_width]

/-! ### Claim theorems: pipeline construction and runner -/

/-- C6 (confirmed): for every `mapping_type` value other than the
INTERLEAVE and FLAT_MAP constants, `setup_input_pipe` raises the
`ValueError` of line 234 during construction — before any example data is
bound or read — and never falls back to a default strategy. -/
theorem setup_input_pipe_rejects_unknown_mapping (files_n mt reps : ℕ)
    (h1 : mt ≠ PIPE_MAPPING_TYPE_INTERLEAVE)
    (h2 : mt ≠ PIPE_MAPPING_TYPE_FLAT_MAP) :
    (setup_input_pipe files_n mt reps :
        Except String (List (List ℕ) → List ℕ)) =
      .error "mapping_type param in not one of PIPE_MAPPING_TYPE constants." := by
  unfold setup_input_pipe
  rw [if_neg h1, if_neg h2]

/-- C6 witness at the unrecognized strategy value 7. -/
theorem setup_input_pipe_rejects_unknown_mapping_witness :
    (setup_input_pipe 4 7 1 : Except String (List (List ℕ) → List ℕ)) =
      .error "mapping_type param in not one of PIPE_MAPPING_TYPE constants." :=
  setup_input_pipe_rejects_unknown_mapping 4 7 1 (by decide) (by decide)

/-- C8 (code_bug): every invocation of `OMTFRunner.test` reaches the call
`setup_accuracy(...)` at line 427, a name that is neither defined in
`runner.py` nor among its imports, so the call aborts with a `NameError`
instead of returning the structured summary of lines 463-468. -/
theorem test_raises_name_error (sessName modelName : String)
    (acc : List (String × ℚ)) :
    omtfRunnerTest sessName modelName acc =
      .error "NameError: name setup_accuracy is not defined" := rfl

/-! ### Dict lemmas for the runner parameter aliasing -/

/-- Looking up the key just written yields the written value. -/
theorem dictLookup_dictSet_same (d : List (String × PyVal)) (k : String)
    (v : PyVal) : dictLookup k (dictSet d k v) = some v := by
  induction d with
  | nil => simp [dictSet, dictLookup]
  | cons kv rest ih =>
    obtain ⟨k', v'⟩ := kv
    by_cases h : k' = k
    · simp [dictSet, dictLookup, h]
    · simp [dictSet, dictLookup, h, ih]

/-- Writing one key leaves the lookup of a different key unchanged. -/
theorem dictLookup_dictSet_other (d : List (String × PyVal)) (k k' : String)
    (v : PyVal) (h : k ≠ k') :
    dictLookup k (dictSet d k' v) = dictLookup k d := by
  induction d with
  | nil => simp [dictSet, dictLookup, Ne.symm h]
  | cons kv rest ih =>
    obtain ⟨a, b⟩ := kv
    by_cases ha : a = k'
    · subst ha
      simp [dictSet, dictLookup, Ne.symm h]
    · by_cases hk : a = k
      · simp [dictSet, dictLookup, ha, hk, h]
      · simp [dictSet, dictLookup, ha, hk, ih]

/-- A lookup of a key that is not one of the five per-session variable
names passes through the variable-writing tail of `omtfRunnerInit`. -/
theorem omtfRunnerInit_lookup_stable (cp kw' : List (String × PyVal))
    (ts nm : String) (it : PyVal) (pc : List ℚ) (key : String)
    (h1 : key ≠ "timestamp") (h2 : key ≠ "sess_name")
    (h3 : key ≠ "in_type") (h4 : key ≠ "out_class_bins")
    (h5 : key ≠ "out_len") :
    dictLookup key (omtfRunnerInit cp kw' ts nm it pc) =
      dictLookup key (kw'.foldl (fun p kv =>
        if (dictLookup kv.1 p).isSome then dictSet p kv.1 kv.2 else p) cp) := by
  simp only [omtfRunnerInit]
  rw [dictLookup_dictSet_other _ _ _ _ h5, dictLookup_dictSet_other _ _ _ _ h4,
    dictLookup_dictSet_other _ _ _ _ h3, dictLookup_dictSet_other _ _ _ _ h2,
    dictLookup_dictSet_other _ _ _ _ h1]

/-- C9 (confirmed): constructing an `OMTFRunner` mutates the shared
class-level `DEFAULT_PARAMS` dict in place, so a keyword override supplied
to a first construction is still visible in the parameters of a second
construction performed with no overrides, and the per-session variables
(for instance the timestamp) are likewise written into the class
attribute. -/
theorem default_params_aliasing (key : String) (v : PyVal)
    (ts1 nm1 ts2 nm2 : String) (it1 it2 : PyVal) (pc1 pc2 : List ℚ)
    (hkey : (dictLookup key DEFAULT_PARAMS).isSome = true)
    (hvar : ¬ key ∈ (["timestamp", "sess_name", "in_type",
      "out_class_bins", "out_len"] : List String)) :
    dictLookup key
        (omtfRunnerInit (omtfRunnerInit DEFAULT_PARAMS [(key, v)] ts1 nm1 it1 pc1)
          [] ts2 nm2 it2 pc2) = some v ∧
    dictLookup "timestamp"
        (omtfRunnerInit DEFAULT_PARAMS [(key, v)] ts1 nm1 it1 pc1) =
      some (.pyStr ts1) := by
  simp only [List.mem_cons, not_or] at hvar
  obtain ⟨h1, h2, h3, h4, h5, -⟩ := hvar
  constructor
  · rw [omtfRunnerInit_lookup_stable _ _ _ _ _ _ _ h1 h2 h3 h4 h5]
    simp only [List.foldl_nil]
    rw [omtfRunnerInit_lookup_stable _ _ _ _ _ _ _ h1 h2 h3 h4 h5]
    simp only [List.foldl_cons, List.foldl_nil]
    rw [if_pos hkey]
    exact dictLookup_dictSet_same _ _ _
  · simp only [omtfRunnerInit]
    rw [dictLookup_dictSet_other _ _ _ _ (by decide),
      dictLookup_dictSet_other _ _ _ _ (by decide),
      dictLookup_dictSet_other _ _ _ _ (by decide),
      dictLookup_dictSet_other _ _ _ _ (by decide)]
    exact dictLookup_dictSet_same _ _ _

/-- C9 witness: override batch_size to 5 in a first construction; a second
construction with no overrides still reads 5 (the documented default is
1000), and the first construction's timestamp sits in the shared dict. -/
theorem default_params_aliasing_witness :
    dictLookup "batch_size"
        (omtfRunnerInit (omtfRunnerInit DEFAULT_PARAMS
            [("batch_size", .pyInt 5)] "t1" "net" .pyNone [])
          [] "t2" "net" .pyNone []) = some (.pyInt 5) ∧
    dictLookup "timestamp"
        (omtfRunnerInit DEFAULT_PARAMS [("batch_size", .pyInt 5)]
          "t1" "net" .pyNone []) = some (.pyStr "t1") :=
  default_params_aliasing "batch_size" (.pyInt 5) "t1" "net" "t2" "net"
    .pyNone .pyNone [] [] (by decide) (by decide)

/-! ### Training-loop termination -/

/-- Case analysis of the training loop: it always stops for one of four
reasons; the debug exit needs the debug option; the budget is never the
stopping reason when `steps < 0`. -/
theorem trainLoop_reason_cases {β : Type*} (steps : ℤ) (debug : Bool)
    (dbgStop : ℕ → Bool) (intr : Option ℕ) :
    ∀ (stream : List β) (i : ℕ),
    (trainLoop steps debug dbgStop intr stream i = .budgetReached ∨
     trainLoop steps debug dbgStop intr stream i = .streamExhausted ∨
     trainLoop steps debug dbgStop intr stream i = .interrupted ∨
     trainLoop steps debug dbgStop intr stream i = .debugExit) ∧
    (debug = false → trainLoop steps debug dbgStop intr stream i ≠ .debugExit) ∧
    (steps < 0 → trainLoop steps debug dbgStop intr stream i ≠ .budgetReached) := by
  intro stream
  induction stream with
  | nil =>
    intro i
    simp only [trainLoop]
    by_cases hintr : intr = some i
    · rw [if_pos hintr]
      exact ⟨Or.inr (Or.inr (Or.inl rfl)), fun _ => by decide, fun _ => by decide⟩
    · rw [if_neg hintr]
      by_cases hbdg : (i : ℤ) ≤ steps ∨ steps < 0
      · rw [if_neg (not_not_intro hbdg)]
        exact ⟨Or.inr (Or.inl rfl), fun _ => by decide, fun _ => by decide⟩
      · rw [if_pos hbdg]
        exact ⟨Or.inl rfl, fun _ => by decide,
          fun hs => (hbdg (Or.inr hs)).elim⟩
  | cons b rest ih =>
    intro i
    simp only [trainLoop]
    by_cases hintr : intr = some i
    · rw [if_pos hintr]
      exact ⟨Or.inr (Or.inr (Or.inl rfl)), fun _ => by decide, fun _ => by decide⟩
    · rw [if_neg hintr]
      by_cases hbdg : (i : ℤ) ≤ steps ∨ steps < 0
      · rw [if_neg (not_not_intro hbdg)]
        by_cases hdbg : (debug && dbgStop i) = true
        · rw [if_pos hdbg]
          refine ⟨Or.inr (Or.inr (Or.inr rfl)), ?_, fun _ => by decide⟩
          intro hf
          rw [hf] at hdbg
          simp at hdbg
        · rw [if_neg hdbg]
          exact ih (i + 1)
      · rw [if_pos hbdg]
        exact ⟨Or.inl rfl, fun _ => by decide,
          fun hs => (hbdg (Or.inr hs)).elim⟩

/-! ### Claim theorems: training-loop termination -/

/-- C7 counterexample: with the debug option enabled and the user exiting
the step debugger at the first step, the loop stops while the budget is
not reached, the stream is not exhausted, and no interrupt arrived — a
fourth termination path the claim does not list. -/
theorem train_termination_cex :
    (omtfTrain 10 true (fun _ => true) none [(), (), ()]).reason ≠
        StopReason.budgetReached ∧
    (omtfTrain 10 true (fun _ => true) none [(), (), ()]).reason ≠
        StopReason.streamExhausted ∧
    (omtfTrain 10 true (fun _ => true) none [(), (), ()]).reason ≠
        StopReason.interrupted := by
  decide

/-- C7 (corrected): the training loop of `OMTFRunner.train` terminates
exactly when the step budget is reached (never so when `steps < 0`), or
the training stream exhausts (a `None` batch), or a keyboard interrupt is
received at a step boundary, or — with the debug option enabled — the
user exits the step debugger; and on every termination path the model is
persisted (finish then save) and the log handles are closed before
`train` returns. -/
theorem train_termination_amended {β : Type*} (steps : ℤ) (debug : Bool)
    (dbgStop : ℕ → Bool) (intr : Option ℕ) (stream : List β) :
    ((omtfTrain steps debug dbgStop intr stream).reason = .budgetReached ∨
     (omtfTrain steps debug dbgStop intr stream).reason = .streamExhausted ∨
     (omtfTrain steps debug dbgStop intr stream).reason = .interrupted ∨
     (omtfTrain steps debug dbgStop intr stream).reason = .debugExit) ∧
    (debug = false →
      (omtfTrain steps debug dbgStop intr stream).reason ≠ .debugExit) ∧
    (steps < 0 →
      (omtfTrain steps debug dbgStop intr stream).reason ≠ .budgetReached) ∧
    (omtfTrain steps debug dbgStop intr stream).finalActions =
      [.finishModel, .saveModel, .closeLogs] := by
  have h := trainLoop_reason_cases steps debug dbgStop intr stream 1
  exact ⟨h.1, h.2.1, h.2.2, rfl⟩

/-- C7 witness: unbounded budget (steps = -1) with debugging disabled; the
stop reason is neither the debug exit nor the budget, and the
finish-save-close sequence runs. -/
theorem train_termination_amended_witness :
    (omtfTrain (-1) false (fun _ => false) none ([(), ()] : List Unit)).reason ≠
        StopReason.debugExit ∧
    (omtfTrain (-1) false (fun _ => false) none ([(), ()] : List Unit)).reason ≠
        StopReason.budgetReached ∧
    (omtfTrain (-1) false (fun _ => false) none
        ([(), ()] : List Unit)).finalActions =
      [.finishModel, .saveModel, .closeLogs] :=
  ⟨(train_termination_amended (-1) false (fun _ => false) none [(), ()]).2.1 rfl,
   (train_termination_amended (-1) false (fun _ => false) none [(), ()]).2.2.1
     (by decide),
   (train_termination_amended (-1) false (fun _ => false) none [(), ()]).2.2.2⟩

/-! ### Interleave round-robin lemmas -/

/-- `tagFrom` establishes the tagging invariant. -/
theorem tagFrom_tagged {α : Type*} :
    ∀ (fs : List (List α)) (n : ℕ), Tagged n (tagFrom n fs) := by
  intro fs
  induction fs with
  | nil => intro n; trivial
  | cons f rest ih =>
    intro n
    refine ⟨?_, ih (n + 1)⟩
    intro x hx
    simp only [List.mem_map] at hx
    obtain ⟨y, _, rfl⟩ := hx
    rfl

/-- Taking every file's tail preserves the tagging invariant. -/
theorem tagged_map_tail {α : Type*} :
    ∀ (fs : List (List (ℕ × α))) (n : ℕ),
    Tagged n fs → Tagged n (fs.map List.tail) := by
  intro fs
  induction fs with
  | nil => intro n h; exact h
  | cons f rest ih =>
    intro n h
    exact ⟨ fun x hx => h.1 x (List.mem_of_mem_tail hx), ih (n + 1) h.2⟩

/-- The heads of nonempty tagged files carry the consecutive file
indices. -/
theorem tagged_heads {α : Type*} :
    ∀ (fs : List (List (ℕ × α))) (n : ℕ), Tagged n fs →
    (∀ f ∈ fs, f ≠ []) →
    (fs.filterMap List.head?).map Prod.fst = List.range' n fs.length := by
  intro fs
  induction fs with
  | nil => intro n _ _; rfl
  | cons f rest ih =>
    intro n htag hne
    obtain ⟨x, f', rfl⟩ : ∃ x f', f = x :: f' := by
      cases f with
      | nil => exact absurd rfl (hne [] (List.mem_cons_self _ _))
      | cons x f' => exact ⟨x, f', rfl⟩
    have hx : x.1 = n := htag.1 x (List.mem_cons_self _ _)
    have hrest :=
      ih (n + 1) htag.2 (fun g hg => hne g (List.mem_cons_of_mem _ hg))
    have hfm : ((x :: f') :: rest).filterMap List.head? =
        x :: rest.filterMap List.head? := rfl
    rw [hfm, List.map_cons, hx, hrest]
    rfl

/-- Per-file lengths after dropping every file's head. -/
theorem lengths_map_tail {α : Type*} (fs : List (List α)) (M : ℕ)
    (h : ∀ f ∈ fs, f.length = M + 1) :
    ∀ g ∈ fs.map List.tail, g.length = M := by
  intro g hg
  simp only [List.mem_map] at hg
  obtain ⟨f, hf, rfl⟩ := hg
  rw [List.length_tail, h f hf]
  omega

/-- Files of length zero are all empty. -/
theorem all_isEmpty_of_lengths_zero {α : Type*} (fs : List (List α))
    (h : ∀ f ∈ fs, f.length = 0) : fs.all List.isEmpty = true := by
  simp only [List.all_eq_true]
  intro f hf
  rw [List.isEmpty_iff]
  exact List.length_eq_zero.mp (h f hf)

/-- The total example count of equally sized files. -/
theorem sum_lengths_eq {α : Type*} :
    ∀ (fs : List (List α)) (M : ℕ), (∀ f ∈ fs, f.length = M) →
    (fs.map List.length).sum = fs.length * M := by
  intro fs
  induction fs with
  | nil => intro M _; simp
  | cons f rest ih =>
    intro M h
    simp only [List.map_cons, List.sum_cons, List.length_cons]
    rw [h f (List.mem_cons_self _ _),
      ih M (fun g hg => h g (List.mem_cons_of_mem _ hg))]
    ring

/-- Tagging does not change the number of files. -/
theorem tagFrom_length {α : Type*} :
    ∀ (fs : List (List α)) (n : ℕ), (tagFrom n fs).length = fs.length := by
  intro fs
  induction fs with
  | nil => intro n; rfl
  | cons f rest ih => intro n; simp [tagFrom, ih]

/-- Tagging does not change the per-file lengths. -/
theorem tagFrom_lengths {α : Type*} :
    ∀ (fs : List (List α)) (n M : ℕ), (∀ f ∈ fs, f.length = M) →
    ∀ g ∈ tagFrom n fs, g.length = M := by
  intro fs
  induction fs with
  | nil => intro n M _ g hg; simp [tagFrom] at hg
  | cons f rest ih =>
    intro n M h g hg
    simp only [tagFrom, List.mem_cons] at hg
    rcases hg with rfl | hg
    · rw [List.length_map]
      exact h f (List.mem_cons_self _ _)
    · exact ih (n + 1) M (fun x hx => h x (List.mem_cons_of_mem _ hx)) g hg

/-- Flattening replicated empty rounds yields nothing. -/
theorem flatten_replicate_nil :
    ∀ (k : ℕ), (List.replicate k ([] : List ℕ)).flatten = [] := by
  intro k
  induction k with
  | zero => rfl
  | succ k ih => rw [List.replicate_succ, List.flatten_cons, List.nil_append, ih]

/-- With all files of equal length, the tag trace of the interleave
rotation is the file-index cycle repeated once per round. -/
theorem interleaveAux_tagged_trace {α : Type*} :
    ∀ (M fuel n : ℕ) (fs : List (List (ℕ × α))),
    (∀ f ∈ fs, f.length = M) → Tagged n fs → fs.length * M ≤ fuel →
    (interleaveAux fuel fs).map Prod.fst =
      (List.replicate M (List.range' n fs.length)).flatten := by
  intro M
  induction M with
  | zero =>
    intro fuel n fs hlen _ _
    have hemp := all_isEmpty_of_lengths_zero fs hlen
    cases fuel with
    | zero => simp [interleaveAux]
    | succ fuel => simp [interleaveAux, hemp]
  | succ M ih =>
    intro fuel n fs hlen htag hfuel
    cases fs with
    | nil =>
      cases fuel with
      | zero => simp [interleaveAux, List.range'_zero, flatten_replicate_nil]
      | succ fuel => simp [interleaveAux, List.range'_zero, flatten_replicate_nil]
    | cons f rest =>
      have hflen : f.length = M + 1 := hlen f (List.mem_cons_self _ _)
      have hfne : f ≠ [] := by
        intro hf
        rw [hf] at hflen
        simp at hflen
      cases fuel with
      | zero =>
        exfalso
        have hpos : 0 < (f :: rest).length * (M + 1) :=
          Nat.mul_pos (Nat.succ_pos _) (Nat.succ_pos _)
        omega
      | succ fuel =>
        have hne : ¬ ((f :: rest).all List.isEmpty = true) := by
          simp only [List.all_cons, Bool.and_eq_true, List.isEmpty_iff]
          intro h
          exact hfne h.1
        have hne' : ∀ g ∈ (f :: rest), g ≠ [] := by
          intro g hg hgnil
          have hg' := hlen g hg
          rw [hgnil] at hg'
          simp at hg'
        have hheads := tagged_heads (f :: rest) n htag hne'
        have hfuel' : ((f :: rest).map List.tail).length * M ≤ fuel := by
          rw [List.length_map]
          have hmul : (f :: rest).length * (M + 1) =
              (f :: rest).length * M + (f :: rest).length := by ring
          have hpos : 0 < (f :: rest).length := Nat.succ_pos _
          omega
        have hrec := ih fuel n ((f :: rest).map List.tail)
          (lengths_map_tail _ M hlen) (tagged_map_tail _ n htag) hfuel'
        simp only [interleaveAux]
        rw [if_neg hne, List.map_append, hheads, hrec, List.length_map,
          List.replicate_succ, List.flatten_cons]

/-- The file trace of INTERLEAVE on equally sized files is the cycle
0..N-1 repeated once per round. -/
theorem fileTrace_roundRobin {α : Type*} (fs : List (List α)) (M : ℕ)
    (hlen : ∀ f ∈ fs, f.length = M) :
    fileTrace fs = (List.replicate M (List.range fs.length)).flatten := by
  unfold fileTrace interleave
  have hlen' := tagFrom_lengths fs 0 M hlen
  have hsum : ((tagFrom 0 fs).map List.length).sum =
      (tagFrom 0 fs).length * M := sum_lengths_eq _ M hlen'
  have h := interleaveAux_tagged_trace M (((tagFrom 0 fs).map List.length).sum)
    0 (tagFrom 0 fs) hlen' (tagFrom_tagged fs 0) (le_of_eq hsum.symm)
  rw [h, tagFrom_length, List.range_eq_range']

/-- Element `q` of the repeated cycle is `q % N`. -/
theorem roundRobin_getElem (N : ℕ) :
    ∀ (M q : ℕ), q < M * N →
    ((List.replicate M (List.range N)).flatten)[q]? = some (q % N) := by
  intro M
  induction M with
  | zero =>
    intro q hq
    simp at hq
  | succ M ih =>
    intro q hq
    rw [List.replicate_succ, List.flatten_cons]
    by_cases h1 : q < N
    · rw [List.getElem?_append, List.length_range, if_pos h1,
        List.getElem?_range h1, Nat.mod_eq_of_lt h1]
    · push_neg at h1
      rw [List.getElem?_append, List.length_range, if_neg (by omega)]
      have hq' : q - N < M * N := by
        have hmul : (M + 1) * N = M * N + N := by ring
        omega
      rw [ih (q - N) hq']
      congr 1
      conv_rhs => rw [← Nat.sub_add_cancel h1]
      rw [Nat.add_mod_right]

/-- The repeated cycle holds `M * N` pulls. -/
theorem roundRobin_length (M N : ℕ) :
    ((List.replicate M (List.range N)).flatten).length = M * N := by
  induction M with
  | zero => simp
  | succ M ih =>
    rw [List.replicate_succ, List.flatten_cons, List.length_append,
      List.length_range, ih]
    ring

/-- A window of the repeated cycle is an interval mapped through the
remainder by `N`. -/
theorem roundRobin_window_eq (M N p : ℕ) :
    (((List.replicate M (List.range N)).flatten).drop p).take N =
      (List.range' p (min N (M * N - p))).map (fun a => a % N) := by
  apply List.ext_getElem?
  intro q
  rw [List.getElem?_take, List.getElem?_map]
  by_cases h1 : q < N
  · rw [if_pos h1, List.getElem?_drop]
    by_cases h2 : p + q < M * N
    · have hq : q < min N (M * N - p) := by omega
      rw [roundRobin_getElem N M (p + q) h2, List.getElem?_range' p 1 hq]
      simp
    · have hlen1 : (List.range' p (min N (M * N - p))).length ≤ q := by
        rw [List.length_range']
        omega
      rw [List.getElem?_eq_none (by rw [roundRobin_length]; omega),
        List.getElem?_eq_none hlen1]
      rfl
  · have hlen1 : (List.range' p (min N (M * N - p))).length ≤ q := by
      rw [List.length_range']
      omega
    rw [if_neg h1, List.getElem?_eq_none hlen1]
    rfl

/-- Any `N`-window of the repeated cycle holds pairwise distinct
values. -/
theorem roundRobin_window_nodup (M N p : ℕ) :
    ((((List.replicate M (List.range N)).flatten).drop p).take N).Nodup := by
  rw [roundRobin_window_eq]
  apply List.Nodup.map_on
  · intro x hx y hy hxy
    rw [List.mem_range'_1] at hx hy
    have hminN : min N (M * N - p) ≤ N := Nat.min_le_left _ _
    have hxN : x - p < N := by omega
    have hyN : y - p < N := by omega
    have hx' : x = p + (x - p) := by omega
    have hy' : y = p + (y - p) := by omega
    rw [hx', hy'] at hxy
    have hmod : (x - p) % N = (y - p) % N :=
      Nat.ModEq.add_left_cancel' p hxy
    rw [Nat.mod_eq_of_lt hxN, Nat.mod_eq_of_lt hyN] at hmod
    omega
  · exact List.nodup_range' _ _

/-! ### Claim theorems: INTERLEAVE window property -/

/-- C5 counterexample: over two files holding 3 and 1 examples, the
INTERLEAVE expansion pulls from files in the order 0, 1, 0, 0, so the
window of N = 2 consecutive un-batched pulls starting at position 2 draws
two examples from file 0. -/
theorem interleave_window_cex :
    ¬ (((fileTrace [[1, 2, 3], [9]]).drop 2).take 2).Nodup := by decide

/-- C5 (corrected): under INTERLEAVE with cycle length equal to the file
count and block length 1, when the N source files hold the same number M
of examples the un-batched stream pulls from files in the round-robin
cycle 0..N-1 repeated M times, and every window of N consecutive
un-batched pulls draws at most one example from each file (the source
file indices in the window are pairwise distinct). -/
theorem interleave_equal_files_window {α : Type*} (fs : List (List α))
    (M p : ℕ) (hlen : ∀ f ∈ fs, f.length = M) :
    fileTrace fs = (List.replicate M (List.range fs.length)).flatten ∧
    (((fileTrace fs).drop p).take fs.length).Nodup := by
  have h := fileTrace_roundRobin fs M hlen
  refine ⟨h, ?_⟩
  rw [h]
  exact roundRobin_window_nodup M fs.length p

/-- C5 witness: two files of two examples each; the trace is the cycle
[0, 1, 0, 1] and the window of size 2 at position 1 has distinct file
indices. -/
theorem interleave_equal_files_window_witness :
    fileTrace [[1, 2], [3, 4]] =
      (List.replicate 2 (List.range 2)).flatten ∧
    (((fileTrace [[1, 2], [3, 4]]).drop 1).take 2).Nodup :=
  interleave_equal_files_window [[1, 2], [3, 4]] 2 1 (by decide)
